import Mathlib

/-!
# Verification of the markdown-translate translation core

A shallow embedding of the content-addressed translation cache and the
bounded-concurrency batch translator of the markdown-translate repository,
together with proofs of the specified properties.

The embedding follows the current application snapshot (the final `App.jsx`
listing inside `src/README.md`, which is the version the specification
describes: multi-provider support, `getEffectiveApiKey`, and the rolling
concurrency pool in `executeBatchTranslation`).  The storage module
`src/utils/translationCache.js` is imported by the app but its source is not
part of the repository snapshot; its two operations are modelled from the
specification and are marked as such in their doc comments.

The batch pool is given a small-step operational semantics: each in-flight
`translateFile` coroutine is suspended at one of its `await` points
(`file.text()`, `generateHash`, the provider fetch, `saveCachedTranslation`)
and a nondeterministic scheduler interleaves resumptions, matching the
single-threaded cooperative concurrency model of the code.  The admission
loop (`executing` set plus `Promise.race`) becomes the `startJob` step,
enabled exactly when files are pending and fewer than `concurrencyLimit`
jobs are in flight.
-/

set_option autoImplicit false

namespace MarkdownTranslate

/-! ## The translation cache -/

/-- A cache entry of the data model: one per document, keyed by
`documentId`, holding the fingerprint of the exact source text that was
translated, the two texts, a creation timestamp and the byte size of the
source (kept for aggregate statistics). -/
structure CacheEntry where
  documentId : String
  contentFingerprint : String
  sourceText : String
  translatedText : String
  createdAt : Nat
  sizeBytes : Nat
deriving DecidableEq, Repr

/-- The persistent translation cache: the collection of current entries. -/
abbrev Cache := List CacheEntry

/-- Modelled from the spec: `saveCachedTranslation` of
`src/utils/translationCache.js` (that file is not in the repository
snapshot; only its import and call sites are).  `store(documentId, digest,
sourceText, translatedText)` replaces any existing entry for `documentId`
with a new one — insert-replaces-by-key, never accumulating. -/
def saveCachedTranslation (c : Cache)
    (documentId digest sourceText translatedText : String) (now : Nat) : Cache :=
  c.filter (fun e => e.documentId != documentId) ++
    [⟨documentId, digest, sourceText, translatedText, now, sourceText.utf8ByteSize⟩]

/-- Modelled from the spec: `getCachedTranslation` of
`src/utils/translationCache.js`.  `lookup(documentId, digest)` returns the
cached translation only if an entry for `documentId` exists and its stored
fingerprint equals `digest`; anything else — including a fingerprint
mismatch — is a MISS (`none`). -/
def getCachedTranslation (c : Cache) (documentId digest : String) : Option String :=
  match c.find? (fun e => e.documentId == documentId) with
  | some e => if e.contentFingerprint = digest then some e.translatedText else none
  | none => none

/-- Number of entries stored for a given `documentId`. -/
def entryCount (c : Cache) (id : String) : Nat :=
  (c.filter (fun e => e.documentId == id)).length

/-! ## API keys and the provider switch -/

/-- The `VITE_*_API_KEY` environment variables consulted as fall-backs;
`none` models an unset variable. -/
structure Env where
  openaiKey : Option String
  anthropicKey : Option String
  geminiKey : Option String
  deeplKey : Option String
deriving DecidableEq, Repr

/-- JavaScript truthiness of a possibly-absent string: `undefined`/`null`
and the empty string are falsy, every other string is truthy. -/
def strTruthy : Option String → Bool
  | some k => k != ""
  | none => false

/-- The provider-indexed environment fall-back chain of `getEffectiveApiKey`
(the `if (provider === 'openai') … else if … return null` ladder). -/
def envFallback (env : Env) (provider : String) : Option String :=
  if provider = "openai" then env.openaiKey
  else if provider = "anthropic" then env.anthropicKey
  else if provider = "gemini" then env.geminiKey
  else if provider = "deepl" then env.deeplKey
  else none

/-- `getEffectiveApiKey(provider)`: return the key stored in the settings
object when it is truthy (present and non-empty); otherwise fall back to the
provider's environment variable, and to `null` for unknown providers. -/
def getEffectiveApiKey (apiKeys : String → Option String) (env : Env)
    (provider : String) : Option String :=
  if strTruthy (apiKeys provider) then apiKeys provider else envFallback env provider

/-- The provider `switch` of `translateToKorean` / `translateFile`: a known
provider invokes its adapter (abstracted as `api`), an unknown provider
throws `Unknown provider`. -/
def dispatchProvider (api : String → String → Except String String)
    (provider content : String) : Except String String :=
  if provider = "openai" ∨ provider = "anthropic" ∨ provider = "gemini" ∨ provider = "deepl"
  then api provider content
  else Except.error ("Unknown provider: " ++ provider)

/-! ## The single-document translation path -/

/-- Observable effects of one `translateToKorean` call, in program order:
the cache lookup, the provider network call, the cache write attempt. -/
inductive SEv where
  | lookupEv
  | providerEv
  | storeEv
deriving DecidableEq, Repr

/-- Result of a `translateToKorean` call.  `translatedNew` carries whether
the trailing cache write failed (reported, non-fatal). -/
inductive SingleResult where
  | noContent
  | cachedHit (translated : String)
  | rejectedNoKey
  | translatedNew (translated : String) (storeFailed : Bool)
  | failed (msg : String)
deriving DecidableEq, Repr

/-- Modelled from the spec: the write path of `saveCachedTranslation` is
non-fatal — a storage-layer failure is reported to the caller instead of
being thrown, and the write is dropped.  `storeOk` says whether the storage
layer accepted the write; the returned flag reports a failed write. -/
def attemptStore (c : Cache) (storeOk : Bool) (id d src tr : String) (now : Nat) :
    Cache × Bool :=
  if storeOk then (saveCachedTranslation c id d src tr now, false) else (c, true)

/-- `translateToKorean` (single-document path): nothing to do on empty
content; fingerprint the content and consult the cache first; reject when no
credential is available for the selected provider; otherwise call the
provider, then attempt the cache write (non-fatal) and deliver the fresh
translation.  Returns the result, the cache after the call, and the event
trace. -/
def translateToKorean (markdownContent filePath fileName : String)
    (hashF : String → String) (cache : Cache)
    (apiKeys : String → Option String) (env : Env) (llmProvider : String)
    (api : String → String → Except String String) (storeOk : Bool) (now : Nat) :
    SingleResult × Cache × List SEv :=
  if markdownContent = "" then (.noContent, cache, [])
  else
    let contentHash := hashF markdownContent
    let docId := if filePath = "" then fileName else filePath
    match getCachedTranslation cache docId contentHash with
    | some cachedTranslation => (.cachedHit cachedTranslation, cache, [.lookupEv])
    | none =>
      if strTruthy (getEffectiveApiKey apiKeys env llmProvider) = false then
        (.rejectedNoKey, cache, [.lookupEv])
      else
        match dispatchProvider api llmProvider markdownContent with
        | .error msg => (.failed msg, cache, [.lookupEv, .providerEv])
        | .ok translated =>
          let stored := attemptStore cache storeOk docId contentHash markdownContent
            translated now
          (.translatedNew translated stored.2, stored.1, [.lookupEv, .providerEv, .storeEv])

/-! ## The batch translation flow -/

/-- A markdown document as the batch flow sees it: its stable path
(`webkitRelativePath || name`) and its source text. -/
structure Doc where
  path : String
  text : String
deriving DecidableEq, Repr

/-- The cache-status scan of `openBatchTranslateModal`: for every markdown
file compute the fingerprint and consult the cache; already-cached paths and
cache-missing (initially selected) paths are returned in file order. -/
def openBatchCacheCheck (cache : Cache) (hashF : String → String) :
    List Doc → List String × List String
  | [] => ([], [])
  | d :: ds =>
    let rest := openBatchCacheCheck cache hashF ds
    if (getCachedTranslation cache d.path (hashF d.text)).isSome
    then (d.path :: rest.1, rest.2)
    else (rest.1, d.path :: rest.2)

/-- Unified observable events of the batch flow. -/
inductive Ev where
  | lookup (path : String)
  | startJob (i : Nat)
  | providerCall (i : Nat)
  | storeCall (i : Nat)
  | resolve (i : Nat)
deriving DecidableEq, Repr

/-- The cache lookups performed by `openBatchTranslateModal`, in file
order; they all precede the batch execution that follows. -/
def modalLookupEvents (docs : List Doc) : List Ev :=
  docs.map (fun d => Ev.lookup d.path)

/-- How `executeBatchTranslation` begins: rejected upfront, or started with
the list of files to translate. -/
inductive BatchStart where
  | emptySelection
  | missingKey
  | started (filesToTranslate : List Doc)
deriving DecidableEq, Repr

/-- The outcome of the upfront phase of `executeBatchTranslation`, together
with the `batchProgress` pair `(current, total)` it leaves behind. -/
structure BatchInit where
  start : BatchStart
  batchProgress : Nat × Nat
deriving DecidableEq, Repr

/-- The upfront part of `executeBatchTranslation`: reject an empty
selection; resolve the API key for the selected provider (settings first,
then environment) and reject when none is available; otherwise fix
`total := selectedFiles.size` and the files to translate. -/
def executeBatchStart (fileList : List Doc) (selectedFiles : List String)
    (apiKeys : String → Option String) (env : Env) (llmProvider : String) : BatchInit :=
  if selectedFiles.length = 0 then ⟨.emptySelection, (0, 0)⟩
  else if strTruthy (getEffectiveApiKey apiKeys env llmProvider) = false then
    ⟨.missingKey, (0, 0)⟩
  else
    ⟨.started (fileList.filter (fun f => selectedFiles.contains f.path)),
      (0, selectedFiles.length)⟩

/-- The jobs the pool will run: none unless the batch actually started. -/
def batchFiles : BatchStart → List Doc
  | .started fs => fs
  | _ => []

/-- `const concurrencyLimit = 3` in `executeBatchTranslation`. -/
def concurrencyLimit : Nat := 3

/-- The suspension point at which an in-flight `translateFile` coroutine is
parked: `await file.text()`, `await generateHash`, the awaited provider
fetch, or the awaited `saveCachedTranslation` (carrying the translation the
provider returned). -/
inductive Phase where
  | awaitText
  | awaitHash
  | awaitProvider
  | awaitStore (translated : String)
deriving DecidableEq, Repr

/-- Fixed data of one batch run: the files to translate (in admission
order), the fingerprint function, the outcome of the provider call for each
job index, and the timestamp used for cache writes. -/
structure BatchCtx where
  files : List Doc
  hashF : String → String
  provRes : Nat → Except String String
  now : Nat

/-- A snapshot of the pool during a batch run.  `active` is the `executing`
set together with each coroutine's suspension point; `translatingFiles`,
`translatedFiles` and `cachedFiles` mirror the UI sets of the same names
(keyed here by job index, which is injective into file paths for a folder
selection); `completed` is the progress counter incremented in the
`finally` of every job. -/
structure PoolState where
  nextIndex : Nat
  active : List (Nat × Phase)
  translatingFiles : List Nat
  translatedFiles : List Nat
  failedFiles : List Nat
  cachedFiles : List Nat
  completed : Nat
  cache : Cache
  events : List Ev
deriving DecidableEq, Repr

/-- The pool before any job is admitted. -/
def initPool (cache : Cache) : PoolState :=
  ⟨0, [], [], [], [], [], 0, cache, []⟩

/-- One scheduler step of the rolling pool.

`startJob` is the admission loop: while files are pending it calls
`translateFile` on the next one — which synchronously marks the file as
translating and suspends at `await file.text()` — and adds the wrapped
promise to `executing`; it is enabled exactly when a file is pending and
fewer than `concurrencyLimit` jobs are in flight (`Promise.race` otherwise
blocks the loop until some job resolves).

The remaining steps resume one suspended coroutine: text read done, hash
done (issuing the provider fetch), provider response (success parks the job
at the awaited cache write; failure runs the `catch`/`finally`: unmark
translating, count it completed, resolve), store done (unmark translating,
record translated+cached, write the cache entry, count it completed,
resolve). -/
inductive Step (ctx : BatchCtx) : PoolState → PoolState → Prop where
  | startJob (s : PoolState)
      (hpending : s.nextIndex < ctx.files.length)
      (hroom : s.active.length < concurrencyLimit) :
      Step ctx s { s with
        nextIndex := s.nextIndex + 1,
        active := s.active ++ [(s.nextIndex, Phase.awaitText)],
        translatingFiles := s.translatingFiles ++ [s.nextIndex],
        events := s.events ++ [Ev.startJob s.nextIndex] }
  | textDone (s : PoolState) (j i : Nat)
      (hj : s.active[j]? = some (i, Phase.awaitText)) :
      Step ctx s { s with active := s.active.set j (i, Phase.awaitHash) }
  | hashDone (s : PoolState) (j i : Nat)
      (hj : s.active[j]? = some (i, Phase.awaitHash)) :
      Step ctx s { s with
        active := s.active.set j (i, Phase.awaitProvider),
        events := s.events ++ [Ev.providerCall i] }
  | providerOk (s : PoolState) (j i : Nat) (t : String)
      (hj : s.active[j]? = some (i, Phase.awaitProvider))
      (hres : ctx.provRes i = Except.ok t) :
      Step ctx s { s with
        active := s.active.set j (i, Phase.awaitStore t),
        events := s.events ++ [Ev.storeCall i] }
  | providerErr (s : PoolState) (j i : Nat) (msg : String)
      (hj : s.active[j]? = some (i, Phase.awaitProvider))
      (hres : ctx.provRes i = Except.error msg) :
      Step ctx s { s with
        active := s.active.eraseIdx j,
        translatingFiles := s.translatingFiles.erase i,
        failedFiles := s.failedFiles ++ [i],
        completed := s.completed + 1,
        events := s.events ++ [Ev.resolve i] }
  | storeDone (s : PoolState) (j i : Nat) (t : String) (d : Doc)
      (hj : s.active[j]? = some (i, Phase.awaitStore t))
      (hd : ctx.files[i]? = some d) :
      Step ctx s { s with
        active := s.active.eraseIdx j,
        translatingFiles := s.translatingFiles.erase i,
        translatedFiles := s.translatedFiles ++ [i],
        cachedFiles := s.cachedFiles ++ [i],
        completed := s.completed + 1,
        cache := saveCachedTranslation s.cache d.path (ctx.hashF d.text) d.text t ctx.now,
        events := s.events ++ [Ev.resolve i] }

/-- Pool states reachable during a batch run that starts on `cache0`. -/
def PoolReachable (ctx : BatchCtx) (cache0 : Cache) (s : PoolState) : Prop :=
  Relation.ReflTransGen (Step ctx) (initPool cache0) s

/-- The invariant maintained by every step of the pool. -/
structure PoolInv (ctx : BatchCtx) (s : PoolState) : Prop where
  next_le : s.nextIndex ≤ ctx.files.length
  act_len : s.active.length ≤ concurrencyLimit
  act_lt : ∀ q ∈ s.active, q.1 < s.nextIndex
  act_nodup : (s.active.map Prod.fst).Nodup
  translating_eq : s.translatingFiles = s.active.map Prod.fst
  done_lt : ∀ i ∈ s.translatedFiles, i < s.nextIndex
  fail_lt : ∀ i ∈ s.failedFiles, i < s.nextIndex
  done_ok : ∀ i ∈ s.translatedFiles, ∃ t, ctx.provRes i = Except.ok t
  fail_err : ∀ i ∈ s.failedFiles, ∃ msg, ctx.provRes i = Except.error msg
  done_nodup : s.translatedFiles.Nodup
  fail_nodup : s.failedFiles.Nodup
  act_done : ∀ q ∈ s.active, q.1 ∉ s.translatedFiles
  act_fail : ∀ q ∈ s.active, q.1 ∉ s.failedFiles
  done_fail : ∀ i ∈ s.translatedFiles, i ∉ s.failedFiles
  cover : ∀ i, i < s.nextIndex →
    i ∈ s.active.map Prod.fst ∨ i ∈ s.translatedFiles ∨ i ∈ s.failedFiles
  completed_eq : s.completed = s.translatedFiles.length + s.failedFiles.length
  count_eq : s.completed + s.active.length = s.nextIndex
  no_lookup : ∀ p, Ev.lookup p ∉ s.events
  phase_store : ∀ i t, (i, Phase.awaitStore t) ∈ s.active → ctx.provRes i = Except.ok t
  cache_ok : (ctx.files.map Doc.path).Nodup → ∀ i ∈ s.translatedFiles,
    ∀ d, ctx.files[i]? = some d →
      ∃ t, ctx.provRes i = Except.ok t ∧
        getCachedTranslation s.cache d.path (ctx.hashF d.text) = some t

/-- Remaining work of a suspended coroutine, used as a termination
measure. -/
def phaseWeight : Phase → Nat
  | .awaitText => 4
  | .awaitHash => 3
  | .awaitProvider => 2
  | .awaitStore _ => 1

/-- Termination measure of the pool: pending admissions plus the remaining
work of every in-flight coroutine. -/
def poolMeasure (ctx : BatchCtx) (s : PoolState) : Nat :=
  5 * (ctx.files.length - s.nextIndex) + (s.active.map (fun q => phaseWeight q.2)).sum

/-! ## A concrete four-document batch

Documents A, B, C, D where the provider fails for A and C and succeeds for
B and D — the partial-failure scenario of the spec's testable properties,
also used to exhibit the rolling admission behaviour. -/

/-- Four documents; provider calls for jobs 0 (`A.md`) and 2 (`C.md`) fail,
jobs 1 (`B.md`) and 3 (`D.md`) succeed. -/
def ctx4 : BatchCtx :=
  ⟨[⟨"A.md", "a"⟩, ⟨"B.md", "b"⟩, ⟨"C.md", "c"⟩, ⟨"D.md", "d"⟩],
    fun s => "#" ++ s,
    fun i => if i = 1 then Except.ok "B-ko"
      else if i = 3 then Except.ok "D-ko"
      else Except.error "HTTP 500",
    7⟩

/-- The pool after admitting jobs 0, 1, 2 and running job 0 up to its
(failing) provider response. -/
def sHash04 : PoolState :=
  ⟨3, [(0, .awaitProvider), (1, .awaitText), (2, .awaitText)], [0, 1, 2], [], [], [], 0, [],
    [.startJob 0, .startJob 1, .startJob 2, .providerCall 0]⟩

/-- The pool just after job 0 failed: a concurrency slot is free again and
job 3 is still pending. -/
def sErr4 : PoolState :=
  ⟨3, [(1, .awaitText), (2, .awaitText)], [1, 2], [], [0], [], 1, [],
    [.startJob 0, .startJob 1, .startJob 2, .providerCall 0, .resolve 0]⟩

/-- The pool right after job 3 was admitted into the slot freed by job 0:
jobs 1, 2, 3 are in flight together although jobs 1 and 2 of the first
"group of three" have not finished — the rolling pool at work. -/
def sMid4 : PoolState :=
  ⟨4, [(1, .awaitText), (2, .awaitText), (3, .awaitText)], [1, 2, 3], [], [0], [], 1, [],
    [.startJob 0, .startJob 1, .startJob 2, .providerCall 0, .resolve 0, .startJob 3]⟩

/-- The cache contents after the four-document batch: entries for the two
successfully translated documents. -/
def cacheFin4 : Cache :=
  saveCachedTranslation
    (saveCachedTranslation [] "B.md" (ctx4.hashF "b") "b" "B-ko" ctx4.now)
    "D.md" (ctx4.hashF "d") "d" "D-ko" ctx4.now

/-- The four-document batch fully resolved: B and D translated and cached,
A and C failed, `completed = 4`. -/
def sFin4 : PoolState :=
  ⟨4, [], [], [1, 3], [0, 2], [1, 3], 4, cacheFin4,
    [.startJob 0, .startJob 1, .startJob 2, .providerCall 0, .resolve 0, .startJob 3,
      .providerCall 1, .storeCall 1, .resolve 1, .providerCall 2, .resolve 2,
      .providerCall 3, .storeCall 3, .resolve 3]⟩

/-- Two documents (the first already cached) for the batch-flow witnesses. -/
def docsW : List Doc := [⟨"A.md", "a"⟩, ⟨"B.md", "b"⟩]

/-- A cache holding a valid entry for `A.md`. -/
def cacheW : Cache := saveCachedTranslation [] "A.md" ("#" ++ "a") "a" "A-ko" 0

end MarkdownTranslate

namespace MarkdownTranslate

/-! ## List helper lemmas -/

theorem mem_eraseIdx_of_mem_ne {α : Type _} {l : List α} {j : Nat} {x y : α}
    (hx : x ∈ l) (hy : l[j]? = some y) (hne : x ≠ y) : x ∈ l.eraseIdx j := by
  induction l generalizing j with
  | nil => cases hx
  | cons a tl ih =>
    cases j with
    | zero =>
      have : a = y := by simpa using hy
      subst this
      rcases List.mem_cons.mp hx with h | h
      · exact absurd h hne
      · simpa using h
    | succ j =>
      rcases List.mem_cons.mp hx with h | h
      · subst h
        simp [List.eraseIdx_cons_succ]
      · have := ih h (by simpa using hy)
        simp [List.eraseIdx_cons_succ, this]

theorem map_fst_eraseIdx {α β : Type _} (l : List (α × β)) (j : Nat) :
    (l.eraseIdx j).map Prod.fst = (l.map Prod.fst).eraseIdx j := by
  induction l generalizing j with
  | nil => simp
  | cons a tl ih =>
    cases j with
    | zero => simp
    | succ j => simp [List.eraseIdx_cons_succ, ih]

theorem erase_of_nodup_getElem {l : List Nat} {j i : Nat}
    (hnd : l.Nodup) (h : l[j]? = some i) : l.erase i = l.eraseIdx j := by
  induction l generalizing j with
  | nil => simp at h
  | cons a tl ih =>
    cases j with
    | zero =>
      have : a = i := by simpa using h
      subst this
      simp
    | succ j =>
      have htl : tl[j]? = some i := by simpa using h
      have hmem : i ∈ tl := List.mem_iff_getElem?.mpr ⟨j, htl⟩
      have hne : a ≠ i := by
        intro hh
        subst hh
        exact (List.nodup_cons.mp hnd).1 hmem
      rw [List.erase_cons_tail (by simpa using hne), List.eraseIdx_cons_succ,
        ih (List.nodup_cons.mp hnd).2 htl]

theorem getElem?_append_cases {α : Type _} {l : List α} {x y : α} {j : Nat}
    (h : (l ++ [x])[j]? = some y) : l[j]? = some y ∨ y = x := by
  by_cases hj : j < l.length
  · left
    rwa [List.getElem?_append_left hj] at h
  · right
    rw [List.getElem?_append_right (Nat.le_of_not_lt hj)] at h
    rcases List.getElem?_eq_some_iff.mp h with ⟨hlt, hv⟩
    simpa using hv.symm

theorem set_self_of_getElem? {α : Type _} {l : List α} {j : Nat} {x : α}
    (h : l[j]? = some x) : l.set j x = l := by
  induction l generalizing j with
  | nil => simp at h
  | cons a tl ih =>
    cases j with
    | zero =>
      have : a = x := by simpa using h
      simp [this]
    | succ j =>
      have := ih (by simpa using h)
      simp [this]

theorem map_fst_set_same {α β : Type _} {l : List (α × β)} {j : Nat} {a : α} {b b' : β}
    (h : l[j]? = some (a, b)) : (l.set j (a, b')).map Prod.fst = l.map Prod.fst := by
  rw [List.map_set]
  exact set_self_of_getElem? (by rw [List.getElem?_map, h]; rfl)

/-! ## Cache lemmas (C7 infrastructure) -/

/-- Entries that survive the replace-by-key filter never match the key. -/
theorem find?_filter_out (c : Cache) (id : String) :
    (c.filter (fun e => e.documentId != id)).find? (fun e => e.documentId == id) = none := by
  induction c with
  | nil => rfl
  | cons e tl ih =>
    by_cases h : e.documentId = id
    · rw [List.filter_cons_of_neg (by simp [h])]
      exact ih
    · rw [List.filter_cons_of_pos (by simp [h]), List.find?_cons_of_neg _ (by simp [h])]
      exact ih

/-- Looking up the key just stored returns the just-stored translation. -/
theorem getCachedTranslation_save_same (c : Cache) (id d src tr : String) (now : Nat) :
    getCachedTranslation (saveCachedTranslation c id d src tr now) id d = some tr := by
  unfold getCachedTranslation saveCachedTranslation
  rw [List.find?_append, find?_filter_out]
  simp

/-- Looking up the stored key under a different digest is a MISS. -/
theorem getCachedTranslation_save_other (c : Cache) (id d d' src tr : String) (now : Nat)
    (h : d' ≠ d) :
    getCachedTranslation (saveCachedTranslation c id d src tr now) id d' = none := by
  unfold getCachedTranslation saveCachedTranslation
  rw [List.find?_append, find?_filter_out]
  simp [Ne.symm h]

/-- A store for a different document leaves a document's lookups unchanged. -/
theorem getCachedTranslation_save_ne (c : Cache) (id id' d' src tr : String) (now : Nat)
    (h : id ≠ id') (dg : String) :
    getCachedTranslation (saveCachedTranslation c id' d' src tr now) id dg =
      getCachedTranslation c id dg := by
  unfold getCachedTranslation saveCachedTranslation
  rw [List.find?_append]
  have hfind : ∀ l : Cache,
      (l.filter (fun e => e.documentId != id')).find? (fun e => e.documentId == id) =
        l.find? (fun e => e.documentId == id) := by
    intro l
    induction l with
    | nil => rfl
    | cons e tl ih =>
      by_cases he' : e.documentId = id'
      · have hne : e.documentId ≠ id := by rw [he']; exact Ne.symm h
        rw [List.filter_cons_of_neg (by simp [he']), List.find?_cons_of_neg _ (by simp [hne])]
        exact ih
      · rw [List.filter_cons_of_pos (by simp [he'])]
        by_cases he : e.documentId = id
        · rw [List.find?_cons_of_pos _ (by simp [he]), List.find?_cons_of_pos _ (by simp [he])]
        · rw [List.find?_cons_of_neg _ (by simp [he]), List.find?_cons_of_neg _ (by simp [he])]
          exact ih
  rw [hfind]
  have hone : ([⟨id', d', src, tr, now, src.utf8ByteSize⟩] : Cache).find?
      (fun e => e.documentId == id) = none := by
    simp [Ne.symm h]
  rw [hone]
  cases c.find? (fun e => e.documentId == id) <;> rfl

/-- Distinct positions of a path-nodup file list carry distinct paths. -/
theorem path_ne_of_nodup {files : List Doc} (hp : (files.map Doc.path).Nodup)
    {i i' : Nat} {d d' : Doc} (h : files[i]? = some d) (h' : files[i']? = some d')
    (hne : i ≠ i') : d.path ≠ d'.path := by
  intro heq
  have h1 : (files.map Doc.path)[i]? = some d.path := by rw [List.getElem?_map, h]; rfl
  have h2 : (files.map Doc.path)[i']? = some d'.path := by rw [List.getElem?_map, h']; rfl
  have hi : i < (files.map Doc.path).length := (List.getElem?_eq_some_iff.mp h1).1
  exact hne (List.getElem?_inj hi hp (by rw [h1, h2, heq]))

/-- After a store, exactly one entry exists for the stored `documentId`. -/
theorem entryCount_save (c : Cache) (id d src tr : String) (now : Nat) :
    entryCount (saveCachedTranslation c id d src tr now) id = 1 := by
  unfold entryCount saveCachedTranslation
  rw [List.filter_append]
  have hz : (c.filter (fun e => e.documentId != id)).filter
      (fun e => e.documentId == id) = [] := by
    induction c with
    | nil => rfl
    | cons e tl ih =>
      by_cases h : e.documentId = id
      · rw [List.filter_cons_of_neg (by simp [h])]
        exact ih
      · rw [List.filter_cons_of_pos (by simp [h]), List.filter_cons_of_neg (by simp [h])]
        exact ih
  simp [hz]

/-! ## The pool invariant -/

/-- The initial pool state satisfies the invariant. -/
theorem poolInv_init (ctx : BatchCtx) (cache0 : Cache) : PoolInv ctx (initPool cache0) := by
  refine ⟨?_, ?_, ?_, ?_, ?_, ?_, ?_, ?_, ?_, ?_, ?_, ?_, ?_, ?_, ?_, ?_, ?_, ?_, ?_, ?_⟩ <;>
    simp [initPool, concurrencyLimit]

/-- Every pool step preserves the invariant. -/
theorem poolInv_step {ctx : BatchCtx} {s s' : PoolState}
    (hinv : PoolInv ctx s) (hstep : Step ctx s s') : PoolInv ctx s' := by
  cases hstep with
  | startJob hpending hroom =>
    refine ⟨?_, ?_, ?_, ?_, ?_, ?_, ?_, ?_, ?_, ?_, ?_, ?_, ?_, ?_, ?_, ?_, ?_, ?_, ?_, ?_⟩
    · exact hpending
    · simpa using hroom
    · intro q hq
      rcases List.mem_append.mp hq with h | h
      · exact Nat.lt_succ_of_lt (hinv.act_lt q h)
      · have : q = (s.nextIndex, Phase.awaitText) := by simpa using h
        rw [this]
        exact Nat.lt_succ_self _
    · rw [List.map_append]
      refine List.Nodup.append hinv.act_nodup (by simp) ?_
      intro x hx hx'
      have hxe : x = s.nextIndex := by simpa using hx'
      rcases List.mem_map.mp hx with ⟨q, hqmem, hqeq⟩
      have := hinv.act_lt q hqmem
      omega
    · rw [hinv.translating_eq, List.map_append]
      simp
    · intro i hi
      exact Nat.lt_succ_of_lt (hinv.done_lt i hi)
    · intro i hi
      exact Nat.lt_succ_of_lt (hinv.fail_lt i hi)
    · exact hinv.done_ok
    · exact hinv.fail_err
    · exact hinv.done_nodup
    · exact hinv.fail_nodup
    · intro q hq
      rcases List.mem_append.mp hq with h | h
      · exact hinv.act_done q h
      · have hqe : q = (s.nextIndex, Phase.awaitText) := by simpa using h
        rw [hqe]
        intro hmem
        have := hinv.done_lt _ hmem
        omega
    · intro q hq
      rcases List.mem_append.mp hq with h | h
      · exact hinv.act_fail q h
      · have hqe : q = (s.nextIndex, Phase.awaitText) := by simpa using h
        rw [hqe]
        intro hmem
        have := hinv.fail_lt _ hmem
        omega
    · exact hinv.done_fail
    · intro i hi
      rcases Nat.lt_succ_iff_lt_or_eq.mp hi with h | h
      · rcases hinv.cover i h with hc | hc | hc
        · left
          rw [List.map_append]
          exact List.mem_append_left _ hc
        · right; left; exact hc
        · right; right; exact hc
      · left
        rw [List.map_append]
        apply List.mem_append_right
        simp [h]
    · exact hinv.completed_eq
    · have := hinv.count_eq
      simp only [List.length_append, List.length_cons, List.length_nil]
      omega
    · intro p hp
      rcases List.mem_append.mp hp with h | h
      · exact hinv.no_lookup p h
      · simp at h
    · intro i t hmem
      rcases List.mem_append.mp hmem with h | h
      · exact hinv.phase_store i t h
      · simp at h
    · intro hp i hi d hd
      exact hinv.cache_ok hp i hi d hd
  | textDone j i hj =>
    have hmem : (i, Phase.awaitText) ∈ s.active := List.mem_iff_getElem?.mpr ⟨j, hj⟩
    have hfst : (s.active.set j (i, Phase.awaitHash)).map Prod.fst = s.active.map Prod.fst :=
      map_fst_set_same hj
    refine ⟨?_, ?_, ?_, ?_, ?_, ?_, ?_, ?_, ?_, ?_, ?_, ?_, ?_, ?_, ?_, ?_, ?_, ?_, ?_, ?_⟩
    · exact hinv.next_le
    · rw [List.length_set]
      exact hinv.act_len
    · intro q hq
      rcases List.mem_or_eq_of_mem_set hq with h | h
      · exact hinv.act_lt q h
      · rw [h]
        exact hinv.act_lt (i, Phase.awaitText) hmem
    · rw [hfst]
      exact hinv.act_nodup
    · rw [hinv.translating_eq, hfst]
    · exact hinv.done_lt
    · exact hinv.fail_lt
    · exact hinv.done_ok
    · exact hinv.fail_err
    · exact hinv.done_nodup
    · exact hinv.fail_nodup
    · intro q hq
      rcases List.mem_or_eq_of_mem_set hq with h | h
      · exact hinv.act_done q h
      · rw [h]
        exact hinv.act_done (i, Phase.awaitText) hmem
    · intro q hq
      rcases List.mem_or_eq_of_mem_set hq with h | h
      · exact hinv.act_fail q h
      · rw [h]
        exact hinv.act_fail (i, Phase.awaitText) hmem
    · exact hinv.done_fail
    · intro i' hi'
      rw [hfst]
      exact hinv.cover i' hi'
    · exact hinv.completed_eq
    · rw [List.length_set]
      exact hinv.count_eq
    · exact hinv.no_lookup
    · intro i' t hmem'
      rcases List.mem_or_eq_of_mem_set hmem' with h | h
      · exact hinv.phase_store i' t h
      · simp at h
    · exact hinv.cache_ok
  | hashDone j i hj =>
    have hmem : (i, Phase.awaitHash) ∈ s.active := List.mem_iff_getElem?.mpr ⟨j, hj⟩
    have hfst : (s.active.set j (i, Phase.awaitProvider)).map Prod.fst = s.active.map Prod.fst :=
      map_fst_set_same hj
    refine ⟨?_, ?_, ?_, ?_, ?_, ?_, ?_, ?_, ?_, ?_, ?_, ?_, ?_, ?_, ?_, ?_, ?_, ?_, ?_, ?_⟩
    · exact hinv.next_le
    · rw [List.length_set]
      exact hinv.act_len
    · intro q hq
      rcases List.mem_or_eq_of_mem_set hq with h | h
      · exact hinv.act_lt q h
      · rw [h]
        exact hinv.act_lt (i, Phase.awaitHash) hmem
    · rw [hfst]
      exact hinv.act_nodup
    · rw [hinv.translating_eq, hfst]
    · exact hinv.done_lt
    · exact hinv.fail_lt
    · exact hinv.done_ok
    · exact hinv.fail_err
    · exact hinv.done_nodup
    · exact hinv.fail_nodup
    · intro q hq
      rcases List.mem_or_eq_of_mem_set hq with h | h
      · exact hinv.act_done q h
      · rw [h]
        exact hinv.act_done (i, Phase.awaitHash) hmem
    · intro q hq
      rcases List.mem_or_eq_of_mem_set hq with h | h
      · exact hinv.act_fail q h
      · rw [h]
        exact hinv.act_fail (i, Phase.awaitHash) hmem
    · exact hinv.done_fail
    · intro i' hi'
      rw [hfst]
      exact hinv.cover i' hi'
    · exact hinv.completed_eq
    · rw [List.length_set]
      exact hinv.count_eq
    · intro p hp
      rcases List.mem_append.mp hp with h | h
      · exact hinv.no_lookup p h
      · simp at h
    · intro i' t hmem'
      rcases List.mem_or_eq_of_mem_set hmem' with h | h
      · exact hinv.phase_store i' t h
      · simp at h
    · exact hinv.cache_ok
  | providerOk j i t hj hres =>
    have hmem : (i, Phase.awaitProvider) ∈ s.active := List.mem_iff_getElem?.mpr ⟨j, hj⟩
    have hfst : (s.active.set j (i, Phase.awaitStore t)).map Prod.fst = s.active.map Prod.fst :=
      map_fst_set_same hj
    refine ⟨?_, ?_, ?_, ?_, ?_, ?_, ?_, ?_, ?_, ?_, ?_, ?_, ?_, ?_, ?_, ?_, ?_, ?_, ?_, ?_⟩
    · exact hinv.next_le
    · rw [List.length_set]
      exact hinv.act_len
    · intro q hq
      rcases List.mem_or_eq_of_mem_set hq with h | h
      · exact hinv.act_lt q h
      · rw [h]
        exact hinv.act_lt (i, Phase.awaitProvider) hmem
    · rw [hfst]
      exact hinv.act_nodup
    · rw [hinv.translating_eq, hfst]
    · exact hinv.done_lt
    · exact hinv.fail_lt
    · exact hinv.done_ok
    · exact hinv.fail_err
    · exact hinv.done_nodup
    · exact hinv.fail_nodup
    · intro q hq
      rcases List.mem_or_eq_of_mem_set hq with h | h
      · exact hinv.act_done q h
      · rw [h]
        exact hinv.act_done (i, Phase.awaitProvider) hmem
    · intro q hq
      rcases List.mem_or_eq_of_mem_set hq with h | h
      · exact hinv.act_fail q h
      · rw [h]
        exact hinv.act_fail (i, Phase.awaitProvider) hmem
    · exact hinv.done_fail
    · intro i' hi'
      rw [hfst]
      exact hinv.cover i' hi'
    · exact hinv.completed_eq
    · rw [List.length_set]
      exact hinv.count_eq
    · intro p hp
      rcases List.mem_append.mp hp with h | h
      · exact hinv.no_lookup p h
      · simp at h
    · intro i' t' hmem'
      rcases List.mem_or_eq_of_mem_set hmem' with h | h
      · exact hinv.phase_store i' t' h
      · injection h with h1 h2
        injection h2 with h3
        subst h1
        subst h3
        exact hres
    · exact hinv.cache_ok
  | providerErr j i msg hj hres =>
    have hmem : (i, Phase.awaitProvider) ∈ s.active := List.mem_iff_getElem?.mpr ⟨j, hj⟩
    have hjlt : j < s.active.length := (List.getElem?_eq_some_iff.mp hj).1
    have hfst_e : (s.active.eraseIdx j).map Prod.fst = (s.active.map Prod.fst).eraseIdx j :=
      map_fst_eraseIdx _ _
    have hfstj : (s.active.map Prod.fst)[j]? = some i := by rw [List.getElem?_map, hj]; rfl
    have hie : i ∉ (s.active.map Prod.fst).eraseIdx j := by
      rw [← erase_of_nodup_getElem hinv.act_nodup hfstj]
      exact hinv.act_nodup.not_mem_erase
    have hsubset : ∀ q ∈ s.active.eraseIdx j, q ∈ s.active :=
      fun q hq => (List.eraseIdx_sublist _ _).subset hq
    have hq1ne : ∀ q ∈ s.active.eraseIdx j, q.1 ≠ i := by
      intro q hq hqi
      apply hie
      rw [← hfst_e]
      exact List.mem_map.mpr ⟨q, hq, hqi⟩
    refine ⟨?_, ?_, ?_, ?_, ?_, ?_, ?_, ?_, ?_, ?_, ?_, ?_, ?_, ?_, ?_, ?_, ?_, ?_, ?_, ?_⟩
    · exact hinv.next_le
    · exact le_trans (List.length_eraseIdx_le _ _) hinv.act_len
    · intro q hq
      exact hinv.act_lt q (hsubset q hq)
    · rw [hfst_e]
      exact List.Nodup.eraseIdx _ hinv.act_nodup
    · rw [hinv.translating_eq, erase_of_nodup_getElem hinv.act_nodup hfstj, hfst_e]
    · exact hinv.done_lt
    · intro i' hi'
      rcases List.mem_append.mp hi' with h | h
      · exact hinv.fail_lt i' h
      · have : i' = i := by simpa using h
        rw [this]
        exact hinv.act_lt (i, Phase.awaitProvider) hmem
    · exact hinv.done_ok
    · intro i' hi'
      rcases List.mem_append.mp hi' with h | h
      · exact hinv.fail_err i' h
      · have : i' = i := by simpa using h
        rw [this]
        exact ⟨msg, hres⟩
    · exact hinv.done_nodup
    · refine List.Nodup.append hinv.fail_nodup (by simp) ?_
      intro x hx hx'
      have : x = i := by simpa using hx'
      rw [this] at hx
      exact hinv.act_fail (i, Phase.awaitProvider) hmem hx
    · intro q hq
      exact hinv.act_done q (hsubset q hq)
    · intro q hq hmem'
      rcases List.mem_append.mp hmem' with h | h
      · exact hinv.act_fail q (hsubset q hq) h
      · have : q.1 = i := by simpa using h
        exact hq1ne q hq this
    · intro i' hi' hmem'
      rcases List.mem_append.mp hmem' with h | h
      · exact hinv.done_fail i' hi' h
      · have : i' = i := by simpa using h
        rw [this] at hi'
        exact hinv.act_done (i, Phase.awaitProvider) hmem hi'
    · intro i' hi'
      rcases hinv.cover i' hi' with hc | hc | hc
      · by_cases hii : i' = i
        · right; right
          rw [hii]
          simp
        · left
          rw [hfst_e]
          exact mem_eraseIdx_of_mem_ne hc hfstj hii
      · right; left; exact hc
      · right; right
        exact List.mem_append_left _ hc
    · have := hinv.completed_eq
      simp only [List.length_append, List.length_cons, List.length_nil]
      omega
    · have := hinv.count_eq
      show s.completed + 1 + (s.active.eraseIdx j).length = s.nextIndex
      rw [List.length_eraseIdx_of_lt hjlt]
      omega
    · intro p hp
      rcases List.mem_append.mp hp with h | h
      · exact hinv.no_lookup p h
      · simp at h
    · intro i' t hmem'
      exact hinv.phase_store i' t (hsubset _ hmem')
    · exact hinv.cache_ok
  | storeDone j i t d hj hd =>
    have hmem : (i, Phase.awaitStore t) ∈ s.active := List.mem_iff_getElem?.mpr ⟨j, hj⟩
    have hokt : ctx.provRes i = Except.ok t := hinv.phase_store i t hmem
    have hjlt : j < s.active.length := (List.getElem?_eq_some_iff.mp hj).1
    have hfst_e : (s.active.eraseIdx j).map Prod.fst = (s.active.map Prod.fst).eraseIdx j :=
      map_fst_eraseIdx _ _
    have hfstj : (s.active.map Prod.fst)[j]? = some i := by rw [List.getElem?_map, hj]; rfl
    have hie : i ∉ (s.active.map Prod.fst).eraseIdx j := by
      rw [← erase_of_nodup_getElem hinv.act_nodup hfstj]
      exact hinv.act_nodup.not_mem_erase
    have hsubset : ∀ q ∈ s.active.eraseIdx j, q ∈ s.active :=
      fun q hq => (List.eraseIdx_sublist _ _).subset hq
    have hq1ne : ∀ q ∈ s.active.eraseIdx j, q.1 ≠ i := by
      intro q hq hqi
      apply hie
      rw [← hfst_e]
      exact List.mem_map.mpr ⟨q, hq, hqi⟩
    refine ⟨?_, ?_, ?_, ?_, ?_, ?_, ?_, ?_, ?_, ?_, ?_, ?_, ?_, ?_, ?_, ?_, ?_, ?_, ?_, ?_⟩
    · exact hinv.next_le
    · exact le_trans (List.length_eraseIdx_le _ _) hinv.act_len
    · intro q hq
      exact hinv.act_lt q (hsubset q hq)
    · rw [hfst_e]
      exact List.Nodup.eraseIdx _ hinv.act_nodup
    · rw [hinv.translating_eq, erase_of_nodup_getElem hinv.act_nodup hfstj, hfst_e]
    · intro i' hi'
      rcases List.mem_append.mp hi' with h | h
      · exact hinv.done_lt i' h
      · have : i' = i := by simpa using h
        rw [this]
        exact hinv.act_lt (i, Phase.awaitStore t) hmem
    · exact hinv.fail_lt
    · intro i' hi'
      rcases List.mem_append.mp hi' with h | h
      · exact hinv.done_ok i' h
      · have : i' = i := by simpa using h
        rw [this]
        exact ⟨t, hokt⟩
    · exact hinv.fail_err
    · refine List.Nodup.append hinv.done_nodup (by simp) ?_
      intro x hx hx'
      have : x = i := by simpa using hx'
      rw [this] at hx
      exact hinv.act_done (i, Phase.awaitStore t) hmem hx
    · exact hinv.fail_nodup
    · intro q hq hmem'
      rcases List.mem_append.mp hmem' with h | h
      · exact hinv.act_done q (hsubset q hq) h
      · have : q.1 = i := by simpa using h
        exact hq1ne q hq this
    · intro q hq
      exact hinv.act_fail q (hsubset q hq)
    · intro i' hi' hmem'
      rcases List.mem_append.mp hi' with h | h
      · exact hinv.done_fail i' h hmem'
      · have : i' = i := by simpa using h
        rw [this] at hmem'
        exact hinv.act_fail (i, Phase.awaitStore t) hmem hmem'
    · intro i' hi'
      rcases hinv.cover i' hi' with hc | hc | hc
      · by_cases hii : i' = i
        · right; left
          rw [hii]
          simp
        · left
          rw [hfst_e]
          exact mem_eraseIdx_of_mem_ne hc hfstj hii
      · right; left
        exact List.mem_append_left _ hc
      · right; right; exact hc
    · have := hinv.completed_eq
      simp only [List.length_append, List.length_cons, List.length_nil]
      omega
    · have := hinv.count_eq
      show s.completed + 1 + (s.active.eraseIdx j).length = s.nextIndex
      rw [List.length_eraseIdx_of_lt hjlt]
      omega
    · intro p hp
      rcases List.mem_append.mp hp with h | h
      · exact hinv.no_lookup p h
      · simp at h
    · intro i' t' hmem'
      exact hinv.phase_store i' t' (hsubset _ hmem')
    · intro hp i' hi' d' hd'
      rcases List.mem_append.mp hi' with hold | hnew
      · obtain ⟨t', hok', hlook'⟩ := hinv.cache_ok hp i' hold d' hd'
        have hne : i' ≠ i := fun hh => hinv.act_done (i, Phase.awaitStore t) hmem (hh ▸ hold)
        have hpne : d'.path ≠ d.path := path_ne_of_nodup hp hd' hd hne
        exact ⟨t', hok', by
          rw [getCachedTranslation_save_ne _ _ _ _ _ _ _ hpne _]
          exact hlook'⟩
      · have hii : i' = i := by simpa using hnew
        subst hii
        have hdd : d = d' := by
          rw [hd] at hd'
          exact Option.some.inj hd'
        subst hdd
        exact ⟨t, hokt, getCachedTranslation_save_same _ _ _ _ _ _⟩

/-- Every reachable pool state satisfies the invariant. -/
theorem poolInv_reachable {ctx : BatchCtx} {cache0 : Cache} {s : PoolState}
    (h : PoolReachable ctx cache0 s) : PoolInv ctx s := by
  induction h with
  | refl => exact poolInv_init ctx cache0
  | tail hst hstep ih => exact poolInv_step ih hstep

/-! ## Progress and termination of the pool -/

/-- A pool with no in-flight job and no pending file is stuck. -/
theorem no_step_of_terminal {ctx : BatchCtx} {s : PoolState}
    (ha : s.active = []) (hn : ctx.files.length ≤ s.nextIndex) (s' : PoolState) :
    ¬ Step ctx s s' := by
  intro h
  cases h with
  | startJob hpending hroom => omega
  | textDone j i hj => rw [ha] at hj; simp at hj
  | hashDone j i hj => rw [ha] at hj; simp at hj
  | providerOk j i t hj hres => rw [ha] at hj; simp at hj
  | providerErr j i msg hj hres => rw [ha] at hj; simp at hj
  | storeDone j i t d hj hd => rw [ha] at hj; simp at hj

/-- A pool that is not yet finished can always take a step, and every step
decreases the termination measure.  (One document's failure therefore never
blocks the rest of the batch.) -/
theorem pool_progress {ctx : BatchCtx} {s : PoolState} (hinv : PoolInv ctx s)
    (hne : ¬ (s.active = [] ∧ s.nextIndex = ctx.files.length)) :
    ∃ s', Step ctx s s' ∧ poolMeasure ctx s' < poolMeasure ctx s := by
  rcases hA : s.active with _ | ⟨⟨i, p⟩, rest⟩
  · have hlt : s.nextIndex < ctx.files.length := by
      rcases Nat.lt_or_ge s.nextIndex ctx.files.length with h | h
      · exact h
      · exact absurd ⟨hA, le_antisymm hinv.next_le h⟩ hne
    refine ⟨_, Step.startJob s hlt (by rw [hA]; simp [concurrencyLimit]), ?_⟩
    simp [poolMeasure, hA, phaseWeight]
    omega
  · cases p with
    | awaitText =>
      have hj0 : s.active[0]? = some (i, Phase.awaitText) := by rw [hA]; simp
      refine ⟨_, Step.textDone s 0 i hj0, ?_⟩
      simp [poolMeasure, hA, phaseWeight]
    | awaitHash =>
      have hj0 : s.active[0]? = some (i, Phase.awaitHash) := by rw [hA]; simp
      refine ⟨_, Step.hashDone s 0 i hj0, ?_⟩
      simp [poolMeasure, hA, phaseWeight]
    | awaitProvider =>
      have hj0 : s.active[0]? = some (i, Phase.awaitProvider) := by rw [hA]; simp
      cases hres : ctx.provRes i with
      | ok t =>
        refine ⟨_, Step.providerOk s 0 i t hj0 hres, ?_⟩
        simp [poolMeasure, hA, phaseWeight]
      | error m =>
        refine ⟨_, Step.providerErr s 0 i m hj0 hres, ?_⟩
        simp [poolMeasure, hA, phaseWeight]
    | awaitStore t =>
      have hj0 : s.active[0]? = some (i, Phase.awaitStore t) := by rw [hA]; simp
      have hmem : (i, Phase.awaitStore t) ∈ s.active := by
        rw [hA]
        exact List.mem_cons_self _ _
      have hilt : i < ctx.files.length :=
        lt_of_lt_of_le (hinv.act_lt _ hmem) hinv.next_le
      refine ⟨_, Step.storeDone s 0 i t (ctx.files.get ⟨i, hilt⟩) hj0
        (List.getElem?_eq_getElem hilt), ?_⟩
      simp [poolMeasure, hA, phaseWeight]

/-- A stuck pool has admitted and resolved every file. -/
theorem terminal_shape {ctx : BatchCtx} {s : PoolState} (hinv : PoolInv ctx s)
    (hstuck : ∀ s', ¬ Step ctx s s') :
    s.active = [] ∧ s.nextIndex = ctx.files.length := by
  by_contra h
  obtain ⟨s', hstep, _⟩ := pool_progress hinv h
  exact hstuck s' hstep

/-- From any invariant-satisfying pool state, a stuck (fully resolved)
state is reachable: the batch always terminates. -/
theorem pool_run_to_terminal {ctx : BatchCtx} :
    ∀ (m : Nat) (s : PoolState), poolMeasure ctx s ≤ m → PoolInv ctx s →
      ∃ sF, Relation.ReflTransGen (Step ctx) s sF ∧ sF.active = [] ∧
        sF.nextIndex = ctx.files.length := by
  intro m
  induction m with
  | zero =>
    intro s hm hinv
    by_cases hterm : s.active = [] ∧ s.nextIndex = ctx.files.length
    · exact ⟨s, .refl, hterm.1, hterm.2⟩
    · obtain ⟨s', hstep, hlt⟩ := pool_progress hinv hterm
      omega
  | succ m ih =>
    intro s hm hinv
    by_cases hterm : s.active = [] ∧ s.nextIndex = ctx.files.length
    · exact ⟨s, .refl, hterm.1, hterm.2⟩
    · obtain ⟨s', hstep, hlt⟩ := pool_progress hinv hterm
      obtain ⟨sF, hreach, h1, h2⟩ := ih s' (by omega) (poolInv_step hinv hstep)
      exact ⟨sF, Relation.ReflTransGen.head hstep hreach, h1, h2⟩

/-- Every batch run resolves: from any reachable state a stuck state is
reachable, and stuck means every job was resolved. -/
theorem pool_resolves {ctx : BatchCtx} {cache0 : Cache} {s : PoolState}
    (h : PoolReachable ctx cache0 s) :
    ∃ sF, Relation.ReflTransGen (Step ctx) s sF ∧ (∀ s', ¬ Step ctx sF s') := by
  obtain ⟨sF, hr, h1, h2⟩ :=
    pool_run_to_terminal (poolMeasure ctx s) s le_rfl (poolInv_reachable h)
  exact ⟨sF, hr, no_step_of_terminal h1 (le_of_eq h2.symm)⟩

/-- A batch over no files never moves: its only reachable state is the
initial one (no events, zero completed). -/
theorem pool_empty_files {hashF : String → String} {provRes : Nat → Except String String}
    {now : Nat} {c : Cache} {s : PoolState}
    (h : PoolReachable ⟨[], hashF, provRes, now⟩ c s) : s = initPool c := by
  induction h with
  | refl => rfl
  | tail hst hstep ih =>
    rw [ih] at hstep
    exact absurd hstep (no_step_of_terminal rfl (Nat.zero_le _) _)

/-- In a stuck reachable state every job index is resolved and the progress
counter equals the number of files. -/
theorem pool_terminal_outcomes {ctx : BatchCtx} {s : PoolState} (hinv : PoolInv ctx s)
    (ha : s.active = []) (hn : s.nextIndex = ctx.files.length) :
    s.completed = ctx.files.length ∧
    (∀ i, i < ctx.files.length → i ∈ s.translatedFiles ∨ i ∈ s.failedFiles) := by
  constructor
  · have hc := hinv.count_eq
    rw [ha] at hc
    simp at hc
    omega
  · intro i hi
    rcases hinv.cover i (by omega) with hc | hc | hc
    · rw [ha] at hc
      simp at hc
    · exact Or.inl hc
    · exact Or.inr hc

/-- The invariant carries along any run segment. -/
theorem poolInv_rtg {ctx : BatchCtx} {s sF : PoolState} (hinv : PoolInv ctx s)
    (h : Relation.ReflTransGen (Step ctx) s sF) : PoolInv ctx sF := by
  induction h with
  | refl => exact hinv
  | tail hst hstep ih => exact poolInv_step ih hstep

/-! ## The modal cache check and the upfront batch guards -/

/-- Paths selected by the modal scan come from the scanned files. -/
theorem sel_subset (cache : Cache) (hashF : String → String) :
    ∀ (docs : List Doc) (p : String),
      p ∈ (openBatchCacheCheck cache hashF docs).2 → p ∈ docs.map Doc.path := by
  intro docs
  induction docs with
  | nil => intro p hp; simp [openBatchCacheCheck] at hp
  | cons d ds ih =>
    intro p hp
    unfold openBatchCacheCheck at hp
    by_cases hd : (getCachedTranslation cache d.path (hashF d.text)).isSome
    · rw [if_pos hd] at hp
      exact List.mem_cons_of_mem _ (ih p hp)
    · rw [if_neg hd] at hp
      rcases List.mem_cons.mp hp with h | h
      · rw [h]
        exact List.mem_cons_self _ _
      · exact List.mem_cons_of_mem _ (ih p h)

/-- A document whose modal lookup hits is never put into the initially
selected set (for a folder selection, whose paths are distinct). -/
theorem hit_not_selected (cache : Cache) (hashF : String → String) :
    ∀ (docs : List Doc), (docs.map Doc.path).Nodup → ∀ d ∈ docs,
      (getCachedTranslation cache d.path (hashF d.text)).isSome →
      d.path ∉ (openBatchCacheCheck cache hashF docs).2 := by
  intro docs
  induction docs with
  | nil => intro _ d hd; cases hd
  | cons d0 ds ih =>
    intro hnd d hd hhit
    rw [List.map_cons, List.nodup_cons] at hnd
    obtain ⟨hnd0, hndtl⟩ := hnd
    unfold openBatchCacheCheck
    rcases List.mem_cons.mp hd with hdd | hdd
    · subst hdd
      rw [if_pos hhit]
      intro hmem
      exact hnd0 (sel_subset cache hashF ds d.path hmem)
    · have hne : d.path ≠ d0.path := by
        intro hh
        exact hnd0 (hh ▸ List.mem_map.mpr ⟨d, hdd, rfl⟩)
      by_cases h0 : (getCachedTranslation cache d0.path (hashF d0.text)).isSome
      · rw [if_pos h0]
        exact ih hndtl d hdd hhit
      · rw [if_neg h0]
        intro hmem
        rcases List.mem_cons.mp hmem with h | h
        · exact hne h
        · exact ih hndtl d hdd hhit h

/-- When every scanned document hits the cache, nothing is selected. -/
theorem all_hit_selected_nil (cache : Cache) (hashF : String → String) :
    ∀ (docs : List Doc),
      (∀ d ∈ docs, (getCachedTranslation cache d.path (hashF d.text)).isSome = true) →
      (openBatchCacheCheck cache hashF docs).2 = [] := by
  intro docs
  induction docs with
  | nil => intro _; rfl
  | cons d ds ih =>
    intro hall
    unfold openBatchCacheCheck
    rw [if_pos (hall d (List.mem_cons_self _ _))]
    exact ih fun d' hd' => hall d' (List.mem_cons_of_mem _ hd')

/-- Any job the batch actually starts is a selected file of the file
list. -/
theorem batchFiles_start_subset (fileList : List Doc) (selected : List String)
    (apiKeys : String → Option String) (env : Env) (p : String) :
    ∀ f ∈ batchFiles (executeBatchStart fileList selected apiKeys env p).start,
      f ∈ fileList ∧ f.path ∈ selected := by
  intro f hf
  unfold executeBatchStart at hf
  by_cases h1 : selected.length = 0
  · rw [if_pos h1] at hf
    simp [batchFiles] at hf
  · rw [if_neg h1] at hf
    by_cases h2 : strTruthy (getEffectiveApiKey apiKeys env p) = false
    · rw [if_pos h2] at hf
      simp [batchFiles] at hf
    · rw [if_neg h2] at hf
      simp only [batchFiles] at hf
      have := List.mem_filter.mp hf
      refine ⟨this.1, ?_⟩
      simpa using this.2

/-! ## Running the concrete four-document batch -/

/-- Admit jobs 0, 1, 2 and run job 0 to its provider response. -/
theorem reach_sHash04 : PoolReachable ctx4 [] sHash04 :=
  Relation.ReflTransGen.head (Step.startJob _ (by decide) (by decide))
    (Relation.ReflTransGen.head (Step.startJob _ (by decide) (by decide))
    (Relation.ReflTransGen.head (Step.startJob _ (by decide) (by decide))
    (Relation.ReflTransGen.head (Step.textDone _ 0 0 (by decide))
    (Relation.ReflTransGen.head (Step.hashDone _ 0 0 (by decide))
    Relation.ReflTransGen.refl))))

/-- Job 0's provider call fails; its slot is freed. -/
theorem step_err4 : Step ctx4 sHash04 sErr4 :=
  Step.providerErr sHash04 0 0 "HTTP 500" (by decide) rfl

/-- The admission loop immediately admits job 3 into the freed slot. -/
theorem reach_sMid4 : PoolReachable ctx4 [] sMid4 :=
  Relation.ReflTransGen.tail
    (Relation.ReflTransGen.tail reach_sHash04 step_err4)
    (Step.startJob sErr4 (by decide) (by decide))

/-- Run jobs 1, 2, 3 to completion: the batch resolves fully. -/
theorem reach_sFin4 : PoolReachable ctx4 [] sFin4 :=
  Relation.ReflTransGen.trans reach_sMid4
    (Relation.ReflTransGen.head (Step.textDone _ 0 1 (by decide))
    (Relation.ReflTransGen.head (Step.hashDone _ 0 1 (by decide))
    (Relation.ReflTransGen.head (Step.providerOk _ 0 1 "B-ko" (by decide) rfl)
    (Relation.ReflTransGen.head (Step.storeDone _ 0 1 "B-ko" ⟨"B.md", "b"⟩ (by decide) (by decide))
    (Relation.ReflTransGen.head (Step.textDone _ 0 2 (by decide))
    (Relation.ReflTransGen.head (Step.hashDone _ 0 2 (by decide))
    (Relation.ReflTransGen.head (Step.providerErr _ 0 2 "HTTP 500" (by decide) rfl)
    (Relation.ReflTransGen.head (Step.textDone _ 0 3 (by decide))
    (Relation.ReflTransGen.head (Step.hashDone _ 0 3 (by decide))
    (Relation.ReflTransGen.head (Step.providerOk _ 0 3 "D-ko" (by decide) rfl)
    (Relation.ReflTransGen.head (Step.storeDone _ 0 3 "D-ko" ⟨"D.md", "d"⟩ (by decide) (by decide))
    Relation.ReflTransGen.refl)))))))))))

/-! ## The claims -/

/-- C1: at every instant of a batch translation run, the number of
documents simultaneously in the `translating` state is at most
`concurrencyLimit` (3 in the code): in every reachable pool state the
`translatingFiles` set has at most `concurrencyLimit` members. -/
theorem translating_bounded (ctx : BatchCtx) (cache0 : Cache) (s : PoolState)
    (h : PoolReachable ctx cache0 s) :
    s.translatingFiles.length ≤ concurrencyLimit := by
  have hinv := poolInv_reachable h
  rw [hinv.translating_eq, List.length_map]
  exact hinv.act_len

/-- Witness for C1: the mid-run state with three jobs in flight. -/
theorem translating_bounded_witness :
    sMid4.translatingFiles.length ≤ concurrencyLimit :=
  translating_bounded ctx4 [] sMid4 reach_sMid4

/-- C2: along every batch run `completed` is monotonically non-decreasing,
moves by at most one per scheduler step, counts exactly the resolved jobs
(each job resolving exactly once, whether it succeeded or failed), never
exceeds the number of files fixed at batch start, and equals that total
exactly when the run has resolved. -/
theorem completed_accounting (ctx : BatchCtx) (cache0 : Cache) (s : PoolState)
    (h : PoolReachable ctx cache0 s) :
    (∀ s', Step ctx s s' → s.completed ≤ s'.completed ∧ s'.completed ≤ s.completed + 1) ∧
    s.completed = s.translatedFiles.length + s.failedFiles.length ∧
    s.translatedFiles.Nodup ∧ s.failedFiles.Nodup ∧
    (∀ i ∈ s.translatedFiles, i ∉ s.failedFiles) ∧
    s.completed ≤ ctx.files.length ∧
    ((∀ s', ¬ Step ctx s s') → s.completed = ctx.files.length) := by
  have hinv := poolInv_reachable h
  refine ⟨?_, hinv.completed_eq, hinv.done_nodup, hinv.fail_nodup, hinv.done_fail, ?_, ?_⟩
  · intro s' hstep
    cases hstep with
    | startJob hp hr => exact ⟨Nat.le_refl _, Nat.le_succ _⟩
    | textDone j i hj => exact ⟨Nat.le_refl _, Nat.le_succ _⟩
    | hashDone j i hj => exact ⟨Nat.le_refl _, Nat.le_succ _⟩
    | providerOk j i t hj hres => exact ⟨Nat.le_refl _, Nat.le_succ _⟩
    | providerErr j i msg hj hres => exact ⟨Nat.le_succ _, Nat.le_refl _⟩
    | storeDone j i t d hj hd => exact ⟨Nat.le_succ _, Nat.le_refl _⟩
  · have h1 := hinv.count_eq
    have h2 := hinv.next_le
    omega
  · intro hstuck
    obtain ⟨ha, hn⟩ := terminal_shape hinv hstuck
    exact (pool_terminal_outcomes hinv ha hn).1

/-- Witness for C2: the resolved four-document batch reports
`completed = total = 4`. -/
theorem completed_accounting_witness : sFin4.completed = ctx4.files.length :=
  (completed_accounting ctx4 [] sFin4 reach_sFin4).2.2.2.2.2.2
    (no_step_of_terminal rfl (by decide))

/-- C3: admission is a rolling pool.  First, after any step that resolves a
job (incrementing `completed`), admission of the next pending file is
immediately enabled — one freed slot suffices, no group of
`concurrencyLimit` jobs has to drain.  Second, the four-document batch
reaches a state in which job 3 runs concurrently with the still-unfinished
jobs 1 and 2 of the first three admitted — impossible under fixed-size
batching, which would require jobs 0, 1, 2 to all finish before job 3
starts. -/
theorem rolling_pool_admission :
    (∀ (ctx : BatchCtx) (cache0 : Cache) (s s' : PoolState),
        PoolReachable ctx cache0 s → Step ctx s s' →
        s'.completed = s.completed + 1 → s'.nextIndex < ctx.files.length →
        Step ctx s' { s' with
          nextIndex := s'.nextIndex + 1,
          active := s'.active ++ [(s'.nextIndex, Phase.awaitText)],
          translatingFiles := s'.translatingFiles ++ [s'.nextIndex],
          events := s'.events ++ [Ev.startJob s'.nextIndex] }) ∧
    (∃ s : PoolState, PoolReachable ctx4 [] s ∧
      (1, Phase.awaitText) ∈ s.active ∧ (2, Phase.awaitText) ∈ s.active ∧
      (3, Phase.awaitText) ∈ s.active ∧ s.completed = 1 ∧
      s.translatedFiles = [] ∧ s.failedFiles = [0]) := by
  constructor
  · intro ctx cache0 s s' hreach hstep hcomp hpend
    have hinv := poolInv_reachable hreach
    have hlen : s'.active.length < concurrencyLimit := by
      cases hstep with
      | startJob hp hr =>
        have hcomp' : s.completed = s.completed + 1 := hcomp
        omega
      | textDone j i hj =>
        have hcomp' : s.completed = s.completed + 1 := hcomp
        omega
      | hashDone j i hj =>
        have hcomp' : s.completed = s.completed + 1 := hcomp
        omega
      | providerOk j i t hj hres =>
        have hcomp' : s.completed = s.completed + 1 := hcomp
        omega
      | providerErr j i msg hj hres =>
        have hjlt : j < s.active.length := (List.getElem?_eq_some_iff.mp hj).1
        have hle := hinv.act_len
        show (s.active.eraseIdx j).length < concurrencyLimit
        rw [List.length_eraseIdx_of_lt hjlt]
        omega
      | storeDone j i t d hj hd =>
        have hjlt : j < s.active.length := (List.getElem?_eq_some_iff.mp hj).1
        have hle := hinv.act_len
        show (s.active.eraseIdx j).length < concurrencyLimit
        rw [List.length_eraseIdx_of_lt hjlt]
        omega
    exact Step.startJob s' hpend hlen
  · exact ⟨sMid4, reach_sMid4, by decide, by decide, by decide, rfl, rfl, rfl⟩

/-- Witness for C3: after job 0's failure frees a slot (with job 3 still
pending), admission of job 3 is immediately enabled. -/
theorem rolling_pool_admission_witness :
    Step ctx4 sErr4 { sErr4 with
      nextIndex := sErr4.nextIndex + 1,
      active := sErr4.active ++ [(sErr4.nextIndex, Phase.awaitText)],
      translatingFiles := sErr4.translatingFiles ++ [sErr4.nextIndex],
      events := sErr4.events ++ [Ev.startJob sErr4.nextIndex] } :=
  rolling_pool_admission.1 ctx4 [] sHash04 sErr4 reach_sHash04 step_err4 rfl (by decide)

/-- C4: a batch with mixed provider outcomes still resolves — a stuck
(fully resolved) state is always reachable — and in every resolved state
each document whose provider call succeeds is recorded translated with its
translation written to the cache, each document whose provider call fails
is recorded failed (and not translated), and `completed` equals the full
batch size: no document's failure cancels or blocks any sibling job. -/
theorem failure_isolation (ctx : BatchCtx) (cache0 : Cache)
    (hp : (ctx.files.map Doc.path).Nodup) (s : PoolState)
    (h : PoolReachable ctx cache0 s) :
    (∃ sF, Relation.ReflTransGen (Step ctx) s sF ∧ ∀ s', ¬ Step ctx sF s') ∧
    (∀ sF, Relation.ReflTransGen (Step ctx) s sF → (∀ s', ¬ Step ctx sF s') →
      sF.completed = ctx.files.length ∧
      (∀ i d, ctx.files[i]? = some d →
        (∀ t, ctx.provRes i = Except.ok t → i ∈ sF.translatedFiles ∧
          getCachedTranslation sF.cache d.path (ctx.hashF d.text) = some t) ∧
        (∀ msg, ctx.provRes i = Except.error msg → i ∈ sF.failedFiles ∧
          i ∉ sF.translatedFiles))) := by
  constructor
  · exact pool_resolves h
  · intro sF hr hstuck
    have hinvF := poolInv_rtg (poolInv_reachable h) hr
    obtain ⟨ha, hn⟩ := terminal_shape hinvF hstuck
    obtain ⟨hcomp, hres⟩ := pool_terminal_outcomes hinvF ha hn
    refine ⟨hcomp, ?_⟩
    intro i d hd
    have hilt : i < ctx.files.length := by
      have := (List.getElem?_eq_some_iff.mp hd).1
      exact this
    constructor
    · intro t hok
      have hi : i ∈ sF.translatedFiles := by
        rcases hres i hilt with hc | hc
        · exact hc
        · obtain ⟨m, hm⟩ := hinvF.fail_err i hc
          rw [hok] at hm
          simp at hm
      refine ⟨hi, ?_⟩
      obtain ⟨t', hok', hlook⟩ := hinvF.cache_ok hp i hi d hd
      rw [hok] at hok'
      injection hok' with hinj
      rw [hinj]
      exact hlook
    · intro msg herr
      have hi : i ∈ sF.failedFiles := by
        rcases hres i hilt with hc | hc
        · obtain ⟨t, ht⟩ := hinvF.done_ok i hc
          rw [herr] at ht
          simp at ht
        · exact hc
      exact ⟨hi, fun hmem => hinvF.done_fail i hmem hi⟩

/-- Witness for C4: in the resolved four-document batch, B is translated
and cached, A failed, and the progress counters read 4 of 4. -/
theorem failure_isolation_witness :
    1 ∈ sFin4.translatedFiles ∧
    getCachedTranslation sFin4.cache "B.md" (ctx4.hashF "b") = some "B-ko" ∧
    0 ∈ sFin4.failedFiles ∧ sFin4.completed = ctx4.files.length := by
  have h := (failure_isolation ctx4 [] (by decide) sFin4 reach_sFin4).2 sFin4
    Relation.ReflTransGen.refl (no_step_of_terminal rfl (by decide))
  have hB := (h.2 1 ⟨"B.md", "b"⟩ (by decide)).1 "B-ko" rfl
  have hA := (h.2 0 ⟨"A.md", "a"⟩ (by decide)).2 "HTTP 500" rfl
  exact ⟨hB.1, hB.2, hA.1, h.1⟩

/-- C5: in the batch flow every document's fingerprint is looked up in the
cache during the modal scan; a document whose lookup hits never becomes a
job of the started batch (so no provider call is ever made for it); and in
the combined event trace every cache lookup precedes every provider
call. -/
theorem cache_consulted_before_network (docs : List Doc) (cache : Cache)
    (hashF : String → String) (apiKeys : String → Option String) (env : Env)
    (provider : String) (provRes : Nat → Except String String) (now : Nat)
    (hp : (docs.map Doc.path).Nodup) (s : PoolState)
    (h : PoolReachable
      ⟨batchFiles (executeBatchStart docs (openBatchCacheCheck cache hashF docs).2
          apiKeys env provider).start, hashF, provRes, now⟩ cache s) :
    (∀ d ∈ docs, Ev.lookup d.path ∈ modalLookupEvents docs) ∧
    (∀ d ∈ docs, (getCachedTranslation cache d.path (hashF d.text)).isSome = true →
      ∀ j : Nat, (batchFiles (executeBatchStart docs (openBatchCacheCheck cache hashF docs).2
          apiKeys env provider).start)[j]? ≠ some d) ∧
    (∀ (a b j : Nat) (p : String), (modalLookupEvents docs ++ s.events)[a]? = some (Ev.lookup p) →
      (modalLookupEvents docs ++ s.events)[b]? = some (Ev.providerCall j) → a < b) := by
  refine ⟨?_, ?_, ?_⟩
  · intro d hd
    exact List.mem_map.mpr ⟨d, hd, rfl⟩
  · intro d hd hhit j hj
    have hmem : d ∈ batchFiles (executeBatchStart docs
        (openBatchCacheCheck cache hashF docs).2 apiKeys env provider).start :=
      List.mem_iff_getElem?.mpr ⟨j, hj⟩
    have hsel := (batchFiles_start_subset docs
      (openBatchCacheCheck cache hashF docs).2 apiKeys env provider d hmem).2
    exact hit_not_selected cache hashF docs hp d hd hhit hsel
  · intro a b j p ha hb
    by_cases hbl : b < (modalLookupEvents docs).length
    · exfalso
      rw [List.getElem?_append_left hbl] at hb
      unfold modalLookupEvents at hb
      rw [List.getElem?_map] at hb
      cases hdb : docs[b]? with
      | none => rw [hdb] at hb; simp at hb
      | some dd => rw [hdb] at hb; simp at hb
    · have hble := Nat.le_of_not_lt hbl
      by_cases hal : a < (modalLookupEvents docs).length
      · omega
      · exfalso
        have hale := Nat.le_of_not_lt hal
        rw [List.getElem?_append_right hale] at ha
        have hmem : Ev.lookup p ∈ s.events :=
          List.mem_iff_getElem?.mpr ⟨a - (modalLookupEvents docs).length, ha⟩
        exact (poolInv_reachable h).no_lookup p hmem

/-- Witness for C5: with `A.md` already cached, its lookup appears in the
modal trace and it is not among the started jobs. -/
theorem cache_consulted_before_network_witness :
    Ev.lookup "A.md" ∈ modalLookupEvents docsW ∧
    (batchFiles (executeBatchStart docsW
        (openBatchCacheCheck cacheW (fun s => "#" ++ s) docsW).2
        (fun _ => some "sk") ⟨none, none, none, none⟩ "openai").start)[0]?
      ≠ some ⟨"A.md", "a"⟩ := by
  have h := cache_consulted_before_network docsW cacheW (fun s => "#" ++ s)
    (fun _ => some "sk") ⟨none, none, none, none⟩ "openai" (fun _ => Except.ok "t") 0
    (by decide) (initPool cacheW) Relation.ReflTransGen.refl
  exact ⟨h.1 ⟨"A.md", "a"⟩ (by decide), h.2.1 ⟨"A.md", "a"⟩ (by decide) (by decide) 0⟩

/-- C6: when the provider call succeeds but the trailing cache write fails
at the storage layer, the failure is non-fatal: `translateToKorean` still
delivers the freshly computed translation, reports the failed write, and
leaves the cache unchanged. -/
theorem store_failure_nonfatal (content filePath fileName : String)
    (hashF : String → String) (cache : Cache) (apiKeys : String → Option String)
    (env : Env) (provider : String) (api : String → String → Except String String)
    (now : Nat) (tr : String)
    (hc : content ≠ "")
    (hmiss : getCachedTranslation cache (if filePath = "" then fileName else filePath)
      (hashF content) = none)
    (hkey : strTruthy (getEffectiveApiKey apiKeys env provider) = true)
    (hprov : dispatchProvider api provider content = Except.ok tr) :
    translateToKorean content filePath fileName hashF cache apiKeys env provider api
      false now
      = (.translatedNew tr true, cache, [.lookupEv, .providerEv, .storeEv]) := by
  unfold translateToKorean
  rw [if_neg hc]
  simp only [hmiss, hkey, hprov, attemptStore]
  simp

/-- Witness for C6: a concrete failing store still returns the fresh
translation. -/
theorem store_failure_nonfatal_witness :
    translateToKorean "Hello" "readme.md" "readme.md" (fun s => s) []
      (fun _ => some "sk") ⟨none, none, none, none⟩ "openai"
      (fun _ _ => Except.ok "안녕") false 0
      = (.translatedNew "안녕" true, [], [.lookupEv, .providerEv, .storeEv]) :=
  store_failure_nonfatal "Hello" "readme.md" "readme.md" (fun s => s) []
    (fun _ => some "sk") ⟨none, none, none, none⟩ "openai"
    (fun _ _ => Except.ok "안녕") 0 "안녕" (by decide) rfl (by decide) rfl

/-- C7: after `store(id, d, src, tr)`, `lookup(id, d)` returns `tr` and
`lookup(id, d')` misses for every other digest; after two stores for the
same document, the first digest misses, the second returns its translation,
and exactly one entry exists for the document — store replaces by key. -/
theorem cache_store_lookup_spec (c : Cache) (id d d' d1 d2 src tr s1 t1 s2 t2 : String)
    (n1 n2 : Nat) :
    (getCachedTranslation (saveCachedTranslation c id d src tr n1) id d = some tr) ∧
    (d' ≠ d → getCachedTranslation (saveCachedTranslation c id d src tr n1) id d' = none) ∧
    (d1 ≠ d2 → getCachedTranslation
      (saveCachedTranslation (saveCachedTranslation c id d1 s1 t1 n1) id d2 s2 t2 n2)
      id d1 = none) ∧
    (getCachedTranslation
      (saveCachedTranslation (saveCachedTranslation c id d1 s1 t1 n1) id d2 s2 t2 n2)
      id d2 = some t2) ∧
    (entryCount
      (saveCachedTranslation (saveCachedTranslation c id d1 s1 t1 n1) id d2 s2 t2 n2)
      id = 1) :=
  ⟨getCachedTranslation_save_same c id d src tr n1,
    fun hne => getCachedTranslation_save_other c id d d' src tr n1 hne,
    fun hne => getCachedTranslation_save_other _ id d2 d1 s2 t2 n2 hne,
    getCachedTranslation_save_same _ id d2 s2 t2 n2,
    entryCount_save _ id d2 s2 t2 n2⟩

/-- Witness for C7: the spec's scenario digests `h1`/`h2`. -/
theorem cache_store_lookup_spec_witness :
    getCachedTranslation (saveCachedTranslation [] "readme.md" "h1" "Hello" "안녕" 0)
      "readme.md" "h2" = none :=
  (cache_store_lookup_spec [] "readme.md" "h1" "h2" "h1" "h2" "Hello" "안녕" "Hello"
    "안녕" "Hello!" "안녕!" 0 1).2.1 (by decide)

/-- C8 counterexample: a single-document request with no credential
available but a valid cache entry is not rejected — it succeeds from the
cache (so "the whole request is rejected upfront" does not hold for every
no-credential request). -/
theorem noKey_cacheHit_not_rejected :
    strTruthy (getEffectiveApiKey (fun _ => none) ⟨none, none, none, none⟩ "openai")
      = false ∧
    (translateToKorean "Hello" "readme.md" "readme.md" (fun s => s)
        (saveCachedTranslation [] "readme.md" "Hello" "Hello" "안녕" 0)
        (fun _ => none) ⟨none, none, none, none⟩ "openai"
        (fun _ _ => Except.error "network") true 1).1 = .cachedHit "안녕" ∧
    (translateToKorean "Hello" "readme.md" "readme.md" (fun s => s)
        (saveCachedTranslation [] "readme.md" "Hello" "Hello" "안녕" 0)
        (fun _ => none) ⟨none, none, none, none⟩ "openai"
        (fun _ _ => Except.error "network") true 1).1 ≠ .rejectedNoKey := by
  decide

/-- C8 (amended): a missing credential is detected upfront.  A batch with a
non-empty selection and no credential is rejected before any job starts —
no pool state beyond the initial one is reachable, so no job enters
`translating`, no provider call happens and no progress occurs; a
single-document request that misses the cache is likewise rejected before
any provider call; a single-document request that hits the cache succeeds
from the cache with no provider call, credential or not. -/
theorem config_error_rejected_upfront :
    (∀ (fileList : List Doc) (selected : List String)
        (apiKeys : String → Option String) (env : Env) (p : String),
        selected.length ≠ 0 →
        strTruthy (getEffectiveApiKey apiKeys env p) = false →
        executeBatchStart fileList selected apiKeys env p
          = ⟨.missingKey, (0, 0)⟩) ∧
    (∀ (hashF : String → String) (provRes : Nat → Except String String) (now : Nat)
        (c : Cache) (s : PoolState),
        PoolReachable ⟨batchFiles BatchStart.missingKey, hashF, provRes, now⟩ c s →
        s = initPool c) ∧
    (∀ (content fp fn : String) (hashF : String → String) (cache : Cache)
        (apiKeys : String → Option String) (env : Env) (p : String)
        (api : String → String → Except String String) (storeOk : Bool) (now : Nat),
        content ≠ "" →
        getCachedTranslation cache (if fp = "" then fn else fp) (hashF content) = none →
        strTruthy (getEffectiveApiKey apiKeys env p) = false →
        translateToKorean content fp fn hashF cache apiKeys env p api storeOk now
          = (.rejectedNoKey, cache, [.lookupEv])) ∧
    (∀ (content fp fn : String) (hashF : String → String) (cache : Cache)
        (apiKeys : String → Option String) (env : Env) (p : String)
        (api : String → String → Except String String) (storeOk : Bool) (now : Nat)
        (t : String),
        content ≠ "" →
        getCachedTranslation cache (if fp = "" then fn else fp) (hashF content) = some t →
        translateToKorean content fp fn hashF cache apiKeys env p api storeOk now
          = (.cachedHit t, cache, [.lookupEv])) := by
  refine ⟨?_, ?_, ?_, ?_⟩
  · intro fileList selected apiKeys env p hsel hkey
    unfold executeBatchStart
    rw [if_neg hsel, if_pos hkey]
  · intro hashF provRes now c s h
    exact pool_empty_files h
  · intro content fp fn hashF cache apiKeys env p api storeOk now hc hmiss hkey
    unfold translateToKorean
    rw [if_neg hc]
    simp only [hmiss, hkey]
    simp
  · intro content fp fn hashF cache apiKeys env p api storeOk now t hc hhit
    unfold translateToKorean
    rw [if_neg hc]
    simp only [hhit]

/-- Witness for C8 (amended): a concrete no-credential batch is rejected
upfront. -/
theorem config_error_rejected_upfront_witness :
    executeBatchStart [⟨"A.md", "a"⟩] ["A.md"] (fun _ => none)
      ⟨none, none, none, none⟩ "openai" = ⟨.missingKey, (0, 0)⟩ :=
  config_error_rejected_upfront.1 [⟨"A.md", "a"⟩] ["A.md"] (fun _ => none)
    ⟨none, none, none, none⟩ "openai" (by decide) (by decide)

/-- C9: an empty selection resolves immediately with
`completed = total = 0` and no pool activity; when every scanned document
is a cache hit, nothing is selected, the batch resolves the same way, and
no events — in particular no provider calls — ever occur. -/
theorem empty_or_allhit_batch :
    (∀ (fileList : List Doc) (apiKeys : String → Option String) (env : Env)
        (p : String),
        executeBatchStart fileList [] apiKeys env p = ⟨.emptySelection, (0, 0)⟩) ∧
    (∀ (docs : List Doc) (cache : Cache) (hashF : String → String)
        (apiKeys : String → Option String) (env : Env) (p : String),
        (∀ d ∈ docs, (getCachedTranslation cache d.path (hashF d.text)).isSome = true) →
        (openBatchCacheCheck cache hashF docs).2 = [] ∧
        executeBatchStart docs (openBatchCacheCheck cache hashF docs).2 apiKeys env p
          = ⟨.emptySelection, (0, 0)⟩) ∧
    (∀ (hashF : String → String) (provRes : Nat → Except String String) (now : Nat)
        (c : Cache) (s : PoolState),
        PoolReachable ⟨batchFiles BatchStart.emptySelection, hashF, provRes, now⟩ c s →
        s.completed = 0 ∧ s.events = []) := by
  refine ⟨?_, ?_, ?_⟩
  · intro fileList apiKeys env p
    rfl
  · intro docs cache hashF apiKeys env p hall
    have hnil := all_hit_selected_nil cache hashF docs hall
    refine ⟨hnil, ?_⟩
    rw [hnil]
    rfl
  · intro hashF provRes now c s h
    rw [pool_empty_files h]
    exact ⟨rfl, rfl⟩

/-- Witness for C9: a single already-cached document yields an empty
selection and an immediately resolved batch. -/
theorem empty_or_allhit_batch_witness :
    (openBatchCacheCheck cacheW (fun s => "#" ++ s) [⟨"A.md", "a"⟩]).2 = [] ∧
    executeBatchStart [⟨"A.md", "a"⟩]
      (openBatchCacheCheck cacheW (fun s => "#" ++ s) [⟨"A.md", "a"⟩]).2
      (fun _ => some "sk") ⟨none, none, none, none⟩ "openai"
      = ⟨.emptySelection, (0, 0)⟩ :=
  empty_or_allhit_batch.2.1 [⟨"A.md", "a"⟩] cacheW (fun s => "#" ++ s)
    (fun _ => some "sk") ⟨none, none, none, none⟩ "openai" (by decide)

/-- C10: a non-empty settings key always wins; when the settings key is
empty or absent, `getEffectiveApiKey` returns the provider's environment
variable for the four known providers and `null` for any other provider
name. -/
theorem getEffectiveApiKey_precedence (apiKeys : String → Option String) (env : Env)
    (provider k : String) :
    (apiKeys provider = some k → k ≠ "" →
      getEffectiveApiKey apiKeys env provider = some k) ∧
    (strTruthy (apiKeys provider) = false → provider = "openai" →
      getEffectiveApiKey apiKeys env provider = env.openaiKey) ∧
    (strTruthy (apiKeys provider) = false → provider = "anthropic" →
      getEffectiveApiKey apiKeys env provider = env.anthropicKey) ∧
    (strTruthy (apiKeys provider) = false → provider = "gemini" →
      getEffectiveApiKey apiKeys env provider = env.geminiKey) ∧
    (strTruthy (apiKeys provider) = false → provider = "deepl" →
      getEffectiveApiKey apiKeys env provider = env.deeplKey) ∧
    (strTruthy (apiKeys provider) = false → provider ≠ "openai" →
      provider ≠ "anthropic" → provider ≠ "gemini" → provider ≠ "deepl" →
      getEffectiveApiKey apiKeys env provider = none) := by
  refine ⟨?_, ?_, ?_, ?_, ?_, ?_⟩
  · intro h hk
    rw [getEffectiveApiKey, h]
    simp [strTruthy, hk]
  · intro hf hpv
    subst hpv
    simp [getEffectiveApiKey, hf, envFallback]
  · intro hf hpv
    subst hpv
    simp [getEffectiveApiKey, hf, envFallback]
  · intro hf hpv
    subst hpv
    simp [getEffectiveApiKey, hf, envFallback]
  · intro hf hpv
    subst hpv
    simp [getEffectiveApiKey, hf, envFallback]
  · intro hf h1 h2 h3 h4
    simp [getEffectiveApiKey, hf, envFallback, h1, h2, h3, h4]

/-- Witness for C10: a settings key takes precedence over an environment
key for the same provider. -/
theorem getEffectiveApiKey_precedence_witness :
    getEffectiveApiKey (fun p => if p = "openai" then some "sk-set" else none)
      ⟨some "sk-env", none, none, none⟩ "openai" = some "sk-set" :=
  (getEffectiveApiKey_precedence (fun p => if p = "openai" then some "sk-set" else none)
    ⟨some "sk-env", none, none, none⟩ "openai" "sk-set").1 (by decide) (by decide)

end MarkdownTranslate
